import Mathlib

/-!
# Verification of the borg-archive orchestration core

A shallow embedding, in Lean 4, of the in-process logic of the borg-archive
package (`src/borg_archive/core.py`, `utils.py`, `exceptions.py`): tag
generation, the repository probe, lifecycle teardown, mount/unmount cleanup,
format negotiation, the compress/extract orchestration and the pipeline
runner's error handling.  External tools (borg, tar, zstd, mksquashfs) are
modelled through their documented command-line contracts; the pure control
flow of the Python source is translated function by function.
-/

namespace BorgArch

/-- Python's `str(int)` on a natural number: the decimal digit string,
most-significant digit first (`"0"` for zero).  Used by
`generate_next_tag` (core.py:520-523) to turn the candidate counter into a
tag string. -/
def natToDec (n : Nat) : String :=
  if n = 0 then "0"
  else ⟨((Nat.digits 10 n).map (fun d => Char.ofNat (48 + d))).reverse⟩

/-- Errors of `exceptions.py`, each carrying the formatted message. -/
inductive BAErr where
  | validationError (msg : String)
  | updateError (msg : String)
  | duplicateTag (msg : String)
  | commandError (msg : String)
  | collapseError (msg : String)
  | expandError (msg : String)
  | archiveError (msg : String)
  | mountError (msg : String)
  | repoError (msg : String)
  | commandNotFound (msg : String)
  | runtimeError (msg : String)
  deriving Repr, DecidableEq

/-- The message text an error carries (Python's `str(e)`). -/
def BAErr.msg : BAErr → String
  | .validationError m => m
  | .updateError m => m
  | .duplicateTag m => m
  | .commandError m => m
  | .collapseError m => m
  | .expandError m => m
  | .archiveError m => m
  | .mountError m => m
  | .repoError m => m
  | .commandNotFound m => m
  | .runtimeError m => m

/-- Whether an error is the duplicate-tag kind. -/
def BAErr.isDuplicateTag : BAErr → Bool
  | .duplicateTag _ => true
  | _ => false

/-- The `while str(next_tag) in tags: next_tag += 1` loop of
`generate_next_tag` (core.py:521-522), with explicit fuel; the callers below
supply enough fuel for the loop to exit through its condition. -/
def bumpTag (tags : List String) : Nat → Nat → Nat
  | 0, n => n
  | fuel + 1, n => if natToDec n ∈ tags then bumpTag tags fuel (n + 1) else n

/-- `BorgArchive.generate_next_tag` (core.py:502-523) on the tag list the
engine reported: an explicit tag is returned unless already present (then
`DuplicateTagException`); otherwise the candidate starts at the tag-set size
plus one and is bumped past collisions.  Python's `set(...)` is `List.dedup`. -/
def generate_next_tag (tagList : List String) (tag : Option String) : Except BAErr String :=
  let tags := tagList.dedup
  match tag with
  | some t =>
      if t ∈ tags then .error (.duplicateTag ("Tag \x22" ++ t ++ "\x22 already exists."))
      else .ok t
  | none => .ok (natToDec (bumpTag tags (tags.length + 1) (tags.length + 1)))

/-- Python's `s.startswith(pat)`. -/
def strStartsWith (s pat : String) : Bool := pat.toList.isPrefixOf s.toList

/-- The diagnostic text `dir_is_repo` matches against (core.py:344-346). -/
def repoExistsMsg : String := "A repository already exists at"

/-- Outcome of the `borg init <path> --encryption none` attempt run with
`check=True` (core.py:337-342): normal exit 0, a `CalledProcessError` with
the process's exit status and stderr text, or any other exception. -/
inductive InitOutcome where
  | success
  | exited (rc : Int) (stderrText : String)
  | otherFailure
  deriving Repr, DecidableEq

/-- `BorgArchive.dir_is_repo` (core.py:317-350) as a function of the init
attempt's outcome: `True` exactly when the attempt raised with exit status 2
and stderr starting with the known text; success and other exit outcomes give
`False`; any other exception is re-raised (`.error`). -/
def dir_is_repo : InitOutcome → Except Unit Bool
  | .success => .ok false
  | .exited rc s => .ok (rc == 2 && strStartsWith s repoExistsMsg)
  | .otherFailure => .error ()

/-- The probe as the claim words it: exit status 2 with the diagnostic text as
a SUBSTRING of stderr.  Stated from the spec sentence, to compare against
`dir_is_repo` (which tests a prefix, not a substring). -/
def claimedProbe : InitOutcome → Bool
  | .exited rc s => rc == 2 && decide (repoExistsMsg.toList <:+: s.toList)
  | _ => false

/-- `borg init` on a path holding an empty directory, modelled from the
engine contract the code relies on (comment at core.py:334-336 and the spec's
external-interface section): initialization succeeds and creates a repository
when the path is not yet a repository, and fails with exit 2 and the
"A repository already exists at ..." diagnostic when it is.  The world is the
set of paths that are repositories. -/
def borgInit (world : List String) (p : String) : InitOutcome × List String :=
  if p ∈ world then (.exited 2 (repoExistsMsg ++ " " ++ p ++ "."), world)
  else (.success, p :: world)

/-- One call of `dir_is_repo` on a path in a given world: the probe's answer
and the world after the init attempt's side effect. -/
def dir_is_repo_run (world : List String) (p : String) : Except Unit Bool × List String :=
  (dir_is_repo (borgInit world p).1, (borgInit world p).2)

/-- The set of executables on `PATH`; `shutil.which` is membership. -/
abbrev Env := List String

/-- `shutil.which(c)` as a Boolean. -/
def which (env : Env) (c : String) : Bool := env.contains c

/-- `check_required_commands` (utils.py:39-47), run by the `BorgArchive`
constructor (core.py:91): requires `borg`, `tar` and `zstd` in that order. -/
def check_required_commands (env : Env) : Except BAErr Unit :=
  if !which env "borg" then .error (.commandNotFound "Required command borg not found in PATH")
  else if !which env "tar" then .error (.commandNotFound "Required command tar not found in PATH")
  else if !which env "zstd" then .error (.commandNotFound "Required command zstd not found in PATH")
  else .ok ()

/-- `get_best_compressor` (utils.py:50-92). -/
def get_best_compressor (env : Env) (archiver : String) : Except BAErr (String × String) :=
  if archiver = "tar" then
    if which env "zstd" then .ok ("zstd -9", "zstd -d")
    else if which env "pigz" then .ok ("pigz -9", "pigz -d")
    else if which env "gzip" then .ok ("gzip -9", "gzip -d")
    else .error (.commandNotFound "No supported compression command found (tried: zstd, pigz, gzip)")
  else if archiver = "squashfs" then
    if which env "zstd" then .ok ("-comp zstd -Xcompression-level 9", "-comp zstd")
    else if which env "gzip" then .ok ("-comp gzip -Xcompression-level 9", "-comp gzip")
    else .error (.commandNotFound "No supported compression command found (tried: zstd, gzip)")
  else .error (.runtimeError "Bad archiver type")

/-- The squashfs superblock magic, the bytes `hsqs` (utils.py:110). -/
def sqshMagic : List Nat := [0x68, 0x73, 0x71, 0x73]

/-- The zstd frame magic: the first four bytes of any `zstd -9` output, the
format a tar archive written by this tool begins with. -/
def zstdMagic : List Nat := [0x28, 0xB5, 0x2F, 0xFD]

/-- A path relative to a directory, as components. -/
abbrev RelPath := List String

/-- Contents of an archive file: a zstd-compressed pax tar stream (the entry
paths and opaque content ids it carries), a squashfs image (the tree it
carries), or arbitrary other bytes.  The two container tools are external and
lossless, so the payload is carried by the constructor; `firstFour` below
gives the leading bytes each format has on disk. -/
inductive ArchData where
  | tarZstd (entries : List (RelPath × Nat))
  | squashfs (tree : List (RelPath × Nat))
  | raw (bytes : List Nat)
  deriving Repr, DecidableEq

/-- The first four bytes of the file, as `open(...).read(4)` sees them. -/
def firstFour : ArchData → List Nat
  | .tarZstd _ => zstdMagic
  | .squashfs _ => sqshMagic
  | .raw bs => bs.take 4

/-- The `file_path` argument of `get_best_archiver`: absent, present but not
a file, or an existing file with given bytes. -/
inductive FileArg where
  | noFile
  | missingFile
  | bytes (bs : List Nat)
  deriving Repr, DecidableEq

/-- `get_best_archiver` (utils.py:95-120): for an existing file, sniff the
first four bytes against the squashfs magic; with no file argument, prefer
squashfs when `mksquashfs` is on `PATH`; otherwise tar. -/
def get_best_archiver (f : FileArg) (has_squashfs : Bool) : String :=
  let is_squashfs : Bool :=
    match f with
    | .bytes bs => bs.take 4 == sqshMagic
    | _ => false
  match f with
  | .noFile => if has_squashfs then "squashfs" else "tar"
  | _ => if is_squashfs then "squashfs" else "tar"

/-- `tar --format=pax -cv <name>` run from the repository's parent directory
(core.py:137-144): every entry is the repository's contents under the single
top-level component `<name>`. -/
def tarPax (topName : String) (tree : List (RelPath × Nat)) : List (RelPath × Nat) :=
  tree.map (fun e => (topName :: e.1, e.2))

/-- `tar -xf - -C <repo_dir> --strip-components=1` (core.py:202-209): each
entry loses its leading path component; entries without one are skipped. -/
def stripOne (entries : List (RelPath × Nat)) : List (RelPath × Nat) :=
  (entries.filter (fun e => !e.1.isEmpty)).map (fun e => (e.1.tail, e.2))

/-- `BorgArchive.__create_compressed_archive` (core.py:128-178): dispatch on
the best archiver for writing; tar is packed from the repo's parent with the
repo name as top component, then zstd-compressed; squashfs images the tree
directly.  `none` is the unknown-archiver `ArchiveError` branch. -/
def createCompressedArchive (has_squashfs : Bool) (repoName : String)
    (tree : List (RelPath × Nat)) : Option ArchData :=
  match get_best_archiver .noFile has_squashfs with
  | "tar" => some (.tarZstd (tarPax repoName tree))
  | "squashfs" => some (.squashfs tree)
  | _ => none

/-- `BorgArchive.__extract_compressed_archive` (core.py:180-232): dispatch on
the magic-byte sniff of the existing archive file; the tar branch feeds the
file through `zstd -d` into `tar -x --strip-components=1` (failing on
non-zstd input), the squashfs branch unsquashes the tree. -/
def extractCompressedArchive (a : ArchData) (has_squashfs : Bool) :
    Option (List (RelPath × Nat)) :=
  match get_best_archiver (.bytes (firstFour a)) has_squashfs with
  | "tar" =>
      match a with
      | .tarZstd entries => some (stripOne entries)
      | _ => none
  | "squashfs" =>
      match a with
      | .squashfs tree => some tree
      | _ => none
  | _ => none

/-- `BorgArchive.collapse` (core.py:418-443): the repository must pass the
validity probe, then is compressed into the archive; the repository is
deleted unless retained. -/
def collapse_model (repoIsValid has_squashfs : Bool) (repoName : String)
    (tree : List (RelPath × Nat)) (retain_repo : Bool) :
    Except BAErr (ArchData × Bool) :=
  if !repoIsValid then
    .error (.collapseError "Failed to collapse repository: Not a valid repository directory.")
  else
    match createCompressedArchive has_squashfs repoName tree with
    | some a => .ok (a, !retain_repo)
    | none => .error (.archiveError "Failed to create archive file")

/-- `BorgArchive.expand` (core.py:445-460): decompress the bound archive into
the target repository directory, `ExpandError` on failure. -/
def expand_model (a : ArchData) (has_squashfs : Bool) :
    Except BAErr (List (RelPath × Nat)) :=
  match extractCompressedArchive a has_squashfs with
  | some t => .ok t
  | none => .error (.expandError "Failed to expand archive")

/-- The `subprocess.CalledProcessError` built by `run_pipeline`
(utils.py:254-256): exit status, command, captured stdout, captured stderr. -/
structure CalledProcErr where
  returncode : Int
  cmd : List String
  output : Option String
  stderrData : Option String
  deriving Repr, DecidableEq

/-- The `subprocess.CompletedProcess` `run_pipeline` returns
(utils.py:265-267). -/
structure CompletedProc where
  args : List String
  returncode : Int
  stdout : Option String
  stderrData : Option String
  deriving Repr, DecidableEq

/-- `return_codes.index(next(code for code in return_codes if code != 0))`
(utils.py:251-253): the first occurrence of the first non-zero return code. -/
def pyFailedIndex (rcs : List Int) : Nat :=
  match rcs.find? (fun c => c != 0) with
  | some v => rcs.indexOf v
  | none => 0

/-- The result handling of `run_pipeline` (utils.py:236-267) after all stages
have been waited on: `rcs` are the per-stage exit codes in order, `lastOut`
and `lastErr` the final stage's captured stdout and stderr streams (`none`
when redirected).  Per the loop at utils.py:240-247, the stdout kept is the
final stage's and the stderr kept is the final stage's, or `""` when stderr
is suppressed.  With checking on and any non-zero code, a
`CalledProcessError` is raised naming the first failing stage's command but
built with `return_codes[-1]`; otherwise a `CompletedProcess` for the final
stage is returned. -/
def run_pipeline_model (cmds : List (List String)) (rcs : List Int)
    (lastOut lastErr : Option String) (check suppress_stderr : Bool) :
    Except CalledProcErr CompletedProc :=
  let stdoutKept := lastOut
  let stderrKept : Option String := if suppress_stderr then some "" else lastErr
  if check && rcs.any (fun c => c != 0) then
    .error { returncode := rcs.getLastD 0, cmd := cmds.getD (pyFailedIndex rcs) [],
             output := stdoutKept, stderrData := stderrKept }
  else
    .ok { args := cmds.getLastD [], returncode := rcs.getLastD 0,
          stdout := stdoutKept, stderrData := stderrKept }

/-- The state `BorgArchive.update` (core.py:666-740) acts on, abstracted from
the surrounding filesystem and engine: whether `source_dir_or_repo` is a
directory and whether it passes `dir_is_repo`; the working repository's tag
list; whether `lock.roster` exists in the working repository; whether the
handle's repository is temporary and whether an archive file is bound; and
whether the external extract / borg create / recompress commands succeed. -/
structure UpdateCtx where
  sourceIsDir : Bool
  sourceIsRepo : Bool
  workingTags : List String
  lockFilePresent : Bool
  borgDirIsTemp : Bool
  archiveBound : Bool
  extractOk : Bool
  createOk : Bool
  compressOk : Bool
  deriving Repr, DecidableEq

/-- What one `update` call left behind: the exception propagated to the
caller (if any), the working repository's tag list afterwards, and whether a
new snapshot was taken / the archive file recompressed. -/
structure UpdateResult where
  error : Option BAErr
  tags : List String
  snapshotTaken : Bool
  recompressed : Bool
  deriving Repr, DecidableEq

/-- `BorgArchive.update` (core.py:666-740).  The `try` block at core.py:700
covers the lock pre-check, `generate_next_tag`, `borg create` and the
recompression; its blanket `except Exception` at core.py:739 re-raises
every failure inside it as `UpdateError` with the original message appended —
including the `DuplicateTagException` raised by `generate_next_tag`. -/
def update_model (ctx : UpdateCtx) (tag : Option String) : UpdateResult :=
  if !ctx.sourceIsDir then
    { error := some (.validationError "Source directory does not exist"),
      tags := ctx.workingTags, snapshotTaken := false, recompressed := false }
  else
    let fromRepo := ctx.sourceIsRepo
    let isTemp := if fromRepo then false else ctx.borgDirIsTemp
    if isTemp && !ctx.extractOk then
      { error := some (.updateError "Failed to prepare archive"),
        tags := ctx.workingTags, snapshotTaken := false, recompressed := false }
    else
      let inner : Except BAErr (List String × Bool) :=
        if !fromRepo then
          if ctx.lockFilePresent then
            .error (.updateError "The repository is locked, possibly due to being mounted.")
          else
            match generate_next_tag ctx.workingTags tag with
            | .error e => .error e
            | .ok t =>
                if ctx.createOk then .ok (ctx.workingTags ++ [t], true)
                else .error (.commandError "borg create failed")
        else .ok (ctx.workingTags, false)
      match inner with
      | .error e =>
          { error := some (.updateError ("Failed to update archive: " ++ e.msg)),
            tags := ctx.workingTags, snapshotTaken := false, recompressed := false }
      | .ok (tags2, snap) =>
          if ctx.archiveBound then
            if ctx.compressOk then
              { error := none, tags := tags2, snapshotTaken := snap, recompressed := true }
            else
              { error := some (.updateError "Failed to update archive: compression failed"),
                tags := tags2, snapshotTaken := snap, recompressed := false }
          else
            { error := none, tags := tags2, snapshotTaken := snap, recompressed := false }

/-- The concrete state a duplicate-tag `update` call runs in: an
archive-backed (temporary) working repository whose tag list is `["1"]`, a
plain (non-repository) source directory, no lock, and external commands that
would succeed. -/
def dupTagCtx : UpdateCtx :=
  { sourceIsDir := true, sourceIsRepo := false, workingTags := ["1"],
    lockFilePresent := false, borgDirIsTemp := true, archiveBound := true,
    extractOk := true, createOk := true, compressOk := true }

/-- The in-memory flags of a `BorgArchive` handle that `__exit__` consults. -/
structure Handle where
  isMounted : Bool
  sqfsIsMounted : Bool
  borgDirIsTemp : Bool
  borgDir : String
  tempDir : String
  deriving Repr, DecidableEq

/-- The module constant `DEBUG` (core.py:60). -/
def DEBUG : Bool := false

/-- The externally visible teardown actions `__exit__` can take. -/
inductive TeardownStep where
  | umountSquashfs (dir : String)
  | deleteBorgRepo (dir : String)
  | removeTempDir (dir : String)
  deriving Repr, DecidableEq

/-- `BorgArchive.__exit__` (core.py:111-121) as the ordered list of teardown
actions it performs: nothing when the handle is marked mounted (or in debug
mode); otherwise unmount the squashfs loop mount if one is active, delete
the repository if it is temporary, and remove the scratch directory tree. -/
def exitSteps (h : Handle) : List TeardownStep :=
  if !h.isMounted && !DEBUG then
    (if h.sqfsIsMounted then [TeardownStep.umountSquashfs h.borgDir] else []) ++
    (if h.borgDirIsTemp then [TeardownStep.deleteBorgRepo h.borgDir] else []) ++
    [TeardownStep.removeTempDir h.tempDir]
  else []

/-- `BorgArchive.mount` (core.py:587-629) as a handle transition: preparing a
temporary repository can fail with `MountError`, the `borg mount` command can
fail with `MountError`, and on success — only then — the handle is marked
mounted (core.py:629). -/
def mount_flags (h : Handle) (extractOk mountCmdOk : Bool) : Except BAErr Handle :=
  if h.borgDirIsTemp && !extractOk then .error (.mountError "Failed to prepare archive")
  else if mountCmdOk then .ok { h with isMounted := true }
  else .error (.mountError "Failed to mount archive")

/-- A filesystem path, as components from the root. -/
abbrev FsPath := List String

/-- A node of the modelled filesystem: a directory, the bound archive file,
the `.borg-repo` sidecar (a text file whose content is a repository path), or
any other file (repository internals, identified by an opaque id). -/
inductive FNode where
  | dir
  | file (a : ArchData)
  | repoRef (p : FsPath)
  | blob (id : Nat)
  deriving Repr, DecidableEq

/-- The modelled filesystem: the set of existing paths with their nodes. -/
structure FS where
  entries : List (FsPath × FNode)
  deriving Repr, DecidableEq

/-- Whether a path exists. -/
def FS.hasPath (fs : FS) (p : FsPath) : Bool := fs.entries.any (fun e => e.1 == p)

/-- The node at a path, if any. -/
def FS.readNode (fs : FS) (p : FsPath) : Option FNode :=
  (fs.entries.find? (fun e => e.1 == p)).map (fun e => e.2)

/-- `Path.unlink` / removal of a single entry. -/
def FS.removeEntry (fs : FS) (p : FsPath) : FS :=
  ⟨fs.entries.filter (fun e => !(e.1 == p))⟩

/-- `shutil.rmtree(p)`: remove `p` and everything below it. -/
def FS.rmtree (fs : FS) (p : FsPath) : FS :=
  ⟨fs.entries.filter (fun e => !(decide (p <+: e.1)))⟩

/-- `ensure_dir` / `mkdtemp`: create the directory if absent. -/
def FS.mkdir (fs : FS) (p : FsPath) : FS :=
  if fs.hasPath p then fs else ⟨(p, FNode.dir) :: fs.entries⟩

/-- `write_text` and file extraction: (over)write the node at a path. -/
def FS.writeNode (fs : FS) (p : FsPath) (n : FNode) : FS :=
  ⟨(p, n) :: (fs.removeEntry p).entries⟩

/-- Extracting an archive's tree under a destination directory: write each
carried entry below `dest`. -/
def extractInto (fs : FS) (dest : FsPath) (tree : List (FsPath × FNode)) : FS :=
  tree.foldl (fun acc e => acc.writeNode (dest ++ e.1) e.2) fs

/-- `BorgArchive.__enter__` (core.py:93-109) for an archive-backed instance
(no repository path supplied): create the scratch directory and designate the
temporary repository directory `<scratch>/borg-repo` inside it. -/
def enterTemp (fs : FS) (tempD : FsPath) : FS :=
  (fs.mkdir tempD).mkdir (tempD ++ ["borg-repo"])

/-- `BorgArchive.mount` (core.py:587-629) on the filesystem, for the
temporary (archive-backed) case: ensure the mount directory, write the
`.borg-repo` sidecar holding the temporary repository's path, extract the
archive into the temporary repository, then `borg mount` (a FUSE mount, no
change to the modelled tree). -/
def mountTempFs (fs : FS) (tempD mountD : FsPath) (repoTree : List (FsPath × FNode)) : FS :=
  let fs1 := fs.mkdir mountD
  let fs2 := fs1.writeNode (mountD ++ [".borg-repo"]) (FNode.repoRef (tempD ++ ["borg-repo"]))
  extractInto fs2 (tempD ++ ["borg-repo"]) repoTree

/-- `BorgArchive.unmount` (core.py:631-664): fail if the mount directory does
not exist; `borg umount`; then, if the sidecar exists, read the recorded
temporary repository path, try a squashfs unmount on it (no tree change),
purge the engine's cache/security side-files (outside the modelled tree),
remove that directory tree, and unlink the sidecar. -/
def unmountFs (fs : FS) (mountD : FsPath) : Except BAErr FS :=
  if !fs.hasPath mountD then
    .error (.mountError "Mount directory does not exist")
  else
    match fs.readNode (mountD ++ [".borg-repo"]) with
    | some (.repoRef repo) => .ok ((fs.rmtree repo).removeEntry (mountD ++ [".borg-repo"]))
    | _ => .ok fs

/-- The full mount-then-unmount scenario for a temporary, archive-backed
mount: the mounting invocation enters (scratch directory `tempD`), mounts at
`mountD` and — being marked mounted — performs no teardown on exit; a later,
separate unmount invocation enters with a fresh scratch directory `tempD2`,
unmounts, and its own exit tears `tempD2` down (its repository is temporary
and nothing was mounted by it). -/
def mountUnmountScenario (fs0 : FS) (tempD tempD2 mountD : FsPath)
    (repoTree : List (FsPath × FNode)) : Except BAErr FS :=
  let fs1 := mountTempFs (enterTemp fs0 tempD) tempD mountD repoTree
  let fs2 := enterTemp fs1 tempD2
  match unmountFs fs2 mountD with
  | .error e => .error e
  | .ok fs3 => .ok ((fs3.rmtree (tempD2 ++ ["borg-repo"])).rmtree tempD2)

/-- A concrete initial filesystem for the mount/unmount scenario: just the
bound archive file. -/
def cexFs0 : FS := ⟨[(["home", "arch.baz"], FNode.file (ArchData.squashfs [([], 0)]))]⟩

/-- A concrete repository tree carried by the archive. -/
def cexTree : List (FsPath × FNode) := [(["data"], FNode.blob 0)]

end BorgArch

namespace BorgArch

theorem natToDec_pos_inj {a b : Nat} (ha : a ≠ 0) (hb : b ≠ 0)
    (h : natToDec a = natToDec b) : a = b := by
  have decode : ∀ (l : List Nat), (∀ d ∈ l, d < 10) →
      ((l.map fun d => Char.ofNat (48 + d)).map fun c => c.toNat - 48) = l := by
    intro l hl
    rw [List.map_map]
    have : ∀ d ∈ l, ((fun c : Char => c.toNat - 48) ∘ fun d : Nat => Char.ofNat (48 + d)) d = id d := by
      intro d hd
      have hd10 : d < 10 := hl d hd
      interval_cases d <;> rfl
    rw [List.map_congr_left this, List.map_id]
  simp only [natToDec, ha, hb, if_false] at h
  have h2 := congrArg String.data h
  simp only [List.reverse_inj] at h2
  have ha10 : ∀ d ∈ Nat.digits 10 a, d < 10 := fun d hd => Nat.digits_lt_base (by norm_num) hd
  have hb10 : ∀ d ∈ Nat.digits 10 b, d < 10 := fun d hd => Nat.digits_lt_base (by norm_num) hd
  have hdig : Nat.digits 10 a = Nat.digits 10 b := by
    have := congrArg (List.map fun c : Char => c.toNat - 48) h2
    rwa [decode _ ha10, decode _ hb10] at this
  calc a = Nat.ofDigits 10 (Nat.digits 10 a) := (Nat.ofDigits_digits 10 a).symm
    _ = Nat.ofDigits 10 (Nat.digits 10 b) := by rw [hdig]
    _ = b := Nat.ofDigits_digits 10 b

theorem exists_free_tag (tags : List String) (hnd : tags.Nodup) :
    ∃ j, j ≤ tags.length ∧ natToDec (tags.length + 1 + j) ∉ tags := by
  by_contra hc
  push_neg at hc
  set L := tags.length with hL
  have himg : (Finset.range (L + 1)).image (fun j => natToDec (L + 1 + j)) ⊆ tags.toFinset := by
    intro s hs
    obtain ⟨j, hj, rfl⟩ := Finset.mem_image.mp hs
    exact List.mem_toFinset.mpr (hc j (by simpa using Nat.lt_succ_iff.mp (Finset.mem_range.mp hj)))
  have hcard := Finset.card_le_card himg
  have hinj : Set.InjOn (fun j => natToDec (L + 1 + j)) (Finset.range (L + 1)) := by
    intro j1 _ j2 _ hEq
    have := natToDec_pos_inj (a := L + 1 + j1) (b := L + 1 + j2) (by omega) (by omega) hEq
    omega
  rw [Finset.card_image_of_injOn hinj, Finset.card_range] at hcard
  have hfin : tags.toFinset.card = L := by
    rw [hL]
    exact List.toFinset_card_of_nodup hnd
  omega

theorem bumpTag_spec (tags : List String) :
    ∀ (fuel n : Nat), (∃ j, j ≤ fuel ∧ natToDec (n + j) ∉ tags) →
      natToDec (bumpTag tags fuel n) ∉ tags ∧ n ≤ bumpTag tags fuel n ∧
        ∀ k, n ≤ k → k < bumpTag tags fuel n → natToDec k ∈ tags := by
  intro fuel
  induction fuel with
  | zero =>
    intro n ⟨j, hj, hfree⟩
    have hj0 : j = 0 := Nat.le_zero.mp hj
    subst hj0
    simp only [bumpTag]
    exact ⟨by simpa using hfree, Nat.le_refl n, fun k hk1 hk2 => absurd hk1 (by omega)⟩
  | succ f ih =>
    intro n ⟨j, hj, hfree⟩
    by_cases hmem : natToDec n ∈ tags
    · have hj0 : j ≠ 0 := by
        rintro rfl
        exact hfree (by simpa using hmem)
      obtain ⟨j', rfl⟩ : ∃ j', j = j' + 1 := ⟨j - 1, by omega⟩
      have hstep := ih (n + 1) ⟨j', by omega, by
        have : n + 1 + j' = n + (j' + 1) := by omega
        rw [this]; exact hfree⟩
      simp only [bumpTag, if_pos hmem]
      refine ⟨hstep.1, by omega, ?_⟩
      intro k hk1 hk2
      rcases Nat.eq_or_lt_of_le hk1 with hk | hk
      · subst hk; exact hmem
      · exact hstep.2.2 k (by omega) hk2
    · simp only [bumpTag, if_neg hmem]
      exact ⟨hmem, Nat.le_refl n, fun k hk1 hk2 => absurd hk1 (by omega)⟩

/-- C1: for every tag list (tag set `T` after dedup), `generate_next_tag None`
returns a decimal string that is not in `T`, and it is the decimal string of
the smallest integer that is at least `|T| + 1` and whose decimal string is
not in `T`: the candidate starts at the tag count plus one and increments
past collisions. -/
theorem generate_next_tag_auto_spec (tagList : List String) :
    ∃ m : Nat,
      generate_next_tag tagList none = .ok (natToDec m) ∧
      natToDec m ∉ tagList ∧
      tagList.dedup.length + 1 ≤ m ∧
      ∀ k : Nat, tagList.dedup.length + 1 ≤ k → natToDec k ∉ tagList → m ≤ k := by
  obtain ⟨j, hj, hfree⟩ := exists_free_tag tagList.dedup (List.nodup_dedup tagList)
  set L := tagList.dedup.length with hL
  have hspec := bumpTag_spec tagList.dedup (L + 1) (L + 1) ⟨j, by omega, hfree⟩
  refine ⟨bumpTag tagList.dedup (L + 1) (L + 1), rfl, ?_, hspec.2.1, ?_⟩
  · intro hmem
    exact hspec.1 (List.mem_dedup.mpr hmem)
  · intro k hk1 hk2
    by_contra hlt
    push_neg at hlt
    exact hk2 (List.mem_dedup.mp (hspec.2.2 k hk1 hlt))

/-- C3 (amended): `dir_is_repo` answers `True` exactly when the init attempt
failed with exit status 2 and a stderr that STARTS WITH
"A repository already exists at"; a successful init answers `False`, and so
does any raising exit with a different status or whose stderr merely contains
the text elsewhere. -/
theorem dir_is_repo_exit2_and_leading_text (o : InitOutcome) :
    (dir_is_repo o = .ok true ↔
      ∃ s, o = .exited 2 s ∧ strStartsWith s repoExistsMsg = true) ∧
    dir_is_repo InitOutcome.success = .ok false := by
  refine ⟨⟨?_, ?_⟩, rfl⟩
  · intro h
    match o with
    | .success => simp [dir_is_repo] at h
    | .otherFailure => simp [dir_is_repo] at h
    | .exited rc s =>
        simp only [dir_is_repo, Except.ok.injEq, Bool.and_eq_true, beq_iff_eq] at h
        exact ⟨s, by rw [h.1], h.2⟩
  · rintro ⟨s, rfl, hs⟩
    simp [dir_is_repo, hs]

/-- C3 (counterexample): an init failure with exit status 2 whose stderr
contains "A repository already exists at" as a substring but not at the
start: the claim's substring reading calls it a repository, the code
answers `False`. -/
theorem dir_is_repo_substring_cex :
    claimedProbe (.exited 2 "x: A repository already exists at /r.") = true ∧
    dir_is_repo (.exited 2 "x: A repository already exists at /r.") = .ok false :=
  ⟨by decide, rfl⟩

/-- C9: the validity probe is not read-only: probing a path that is not yet a
repository answers `False` but leaves a freshly initialized repository
behind, so probing the same path again answers `True`. -/
theorem dir_is_repo_creates_repo (world : List String) (p : String) (h : p ∉ world) :
    (dir_is_repo_run world p).1 = .ok false ∧
    p ∈ (dir_is_repo_run world p).2 ∧
    (dir_is_repo_run (dir_is_repo_run world p).2 p).1 = .ok true := by
  have hmsg : strStartsWith (repoExistsMsg ++ " " ++ p ++ ".") repoExistsMsg = true := by
    rw [strStartsWith, List.isPrefixOf_iff_prefix]
    have hcat : (repoExistsMsg ++ " " ++ p ++ ".").toList =
        repoExistsMsg.toList ++ (" ".toList ++ p.toList ++ ".".toList) := by
      simp only [show ∀ x y : String, (x ++ y).toList = x.toList ++ y.toList from
        fun _ _ => rfl, List.append_assoc]
    rw [hcat]
    exact List.prefix_append _ _
  refine ⟨?_, ?_, ?_⟩
  · simp [dir_is_repo_run, borgInit, h, dir_is_repo]
  · simp [dir_is_repo_run, borgInit, h]
  · simp [dir_is_repo_run, borgInit, h, dir_is_repo, hmsg]

theorem dir_is_repo_creates_repo_witness :
    (dir_is_repo_run [] "/tmp/d").1 = .ok false ∧
    "/tmp/d" ∈ (dir_is_repo_run [] "/tmp/d").2 ∧
    (dir_is_repo_run (dir_is_repo_run [] "/tmp/d").2 "/tmp/d").1 = .ok true :=
  dir_is_repo_creates_repo [] "/tmp/d" (List.not_mem_nil _)

/-- C7: for an existing archive file, format negotiation looks only at the
first four bytes: squashfs exactly when they are the squashfs magic,
otherwise tar, and the answer does not depend on which tools are
installed. -/
theorem get_best_archiver_read_spec (bs : List Nat) (hs hs2 : Bool) :
    (get_best_archiver (.bytes bs) hs = "squashfs" ↔ bs.take 4 = sqshMagic) ∧
    get_best_archiver (.bytes bs) hs = get_best_archiver (.bytes bs) hs2 ∧
    (get_best_archiver (.bytes bs) hs = "squashfs" ∨
      get_best_archiver (.bytes bs) hs = "tar") := by
  by_cases h : bs.take 4 = sqshMagic
  · simp [get_best_archiver, h]
  · have hb : (bs.take 4 == sqshMagic) = false := by
      simpa using h
    simp [get_best_archiver, hb, h]

/-- C10: a constructed `BorgArchive` implies `borg`, `tar` and `zstd` are all
on `PATH` — the constructor fails with `CommandNotFoundError` whenever one is
absent — and therefore `get_best_compressor("tar")` returns the zstd pair in
every operation reached through a constructed instance; its pigz, gzip and
error branches are unreachable there. -/
theorem constructor_forces_zstd (env : Env) :
    (check_required_commands env = .ok () →
      get_best_compressor env "tar" = .ok ("zstd -9", "zstd -d")) ∧
    ((which env "borg" = false ∨ which env "tar" = false ∨ which env "zstd" = false) →
      ∃ m, check_required_commands env = .error (.commandNotFound m)) := by
  constructor
  · intro h
    have hz : which env "zstd" = true := by
      by_contra hz
      have hz' : which env "zstd" = false := by simpa using hz
      by_cases hb : which env "borg" = true <;> by_cases ht : which env "tar" = true <;>
        simp_all [check_required_commands]
    simp [get_best_compressor, hz]
  · intro h
    by_cases hb : which env "borg" = true
    · by_cases ht : which env "tar" = true
      · rcases h with h | h | h
        · rw [hb] at h; exact absurd h (by simp)
        · rw [ht] at h; exact absurd h (by simp)
        · refine ⟨"Required command zstd not found in PATH", ?_⟩
          simp [check_required_commands, hb, ht, h]
      · have ht' : which env "tar" = false := by simpa using ht
        refine ⟨"Required command tar not found in PATH", ?_⟩
        simp [check_required_commands, hb, ht']
    · have hb' : which env "borg" = false := by simpa using hb
      refine ⟨"Required command borg not found in PATH", ?_⟩
      simp [check_required_commands, hb']

/-- C2 (code evidence): with working tags `["1"]` and the caller-supplied tag
`"1"`, `update` on a non-repository source directory fails — but with
`UpdateError` wrapping the duplicate-tag message, not with
`DuplicateTagException` as its own docstring and the spec state, because the
blanket `except` at core.py:739 re-wraps it; the tag list is unchanged and no
snapshot or recompression happens. -/
theorem update_duplicate_tag_wrapped :
    update_model dupTagCtx (some "1") =
      { error := some (.updateError "Failed to update archive: Tag \x221\x22 already exists."),
        tags := ["1"], snapshotTaken := false, recompressed := false } ∧
    (update_model dupTagCtx (some "1")).error.map BAErr.isDuplicateTag = some false := by
  refine ⟨?_, ?_⟩ <;> rfl

/-- C4: exiting the scoped acquisition performs no teardown at all after a
successful `mount` (the handle is marked mounted); when the handle is not
marked mounted, it unmounts the squashfs loop mount if one is active, deletes
the repository if it is temporary, and removes the scratch directory tree. -/
theorem exit_teardown_after_mount (h : Handle) :
    ((∃ g eo mo, mount_flags g eo mo = .ok h) → exitSteps h = []) ∧
    (h.isMounted = false →
      exitSteps h =
        (if h.sqfsIsMounted then [TeardownStep.umountSquashfs h.borgDir] else []) ++
          (if h.borgDirIsTemp then [TeardownStep.deleteBorgRepo h.borgDir] else []) ++
          [TeardownStep.removeTempDir h.tempDir]) := by
  constructor
  · rintro ⟨g, eo, mo, hm⟩
    have hmt : h.isMounted = true := by
      unfold mount_flags at hm
      by_cases h1 : (g.borgDirIsTemp && !eo) = true
      · simp [h1] at hm
      · simp only [h1, if_false, Bool.false_eq_true] at hm
        by_cases h2 : mo = true
        · simp only [h2, if_true] at hm
          obtain rfl := Except.ok.inj hm
          rfl
        · simp [h2] at hm
    simp [exitSteps, hmt]
  · intro hm
    simp [exitSteps, hm, DEBUG]

theorem stripOne_tarPax (n : String) (tree : List (RelPath × Nat)) :
    stripOne (tarPax n tree) = tree := by
  induction tree with
  | nil => rfl
  | cons e es ih =>
      simp only [tarPax, List.map_cons, stripOne, List.filter_cons] at ih ⊢
      simpa using ih

/-- C6: collapsing a valid repository directory into an archive file and
expanding that archive back reproduces the repository tree exactly —
whichever container was chosen for writing, and independently of the tool set
present at read time (the magic-byte sniff selects the matching reader) — so
the engine's snapshot set and tag timestamps, a function of the repository
contents, round-trip unchanged. -/
theorem collapse_expand_roundtrip (tree : List (RelPath × Nat)) (repoName : String)
    (hsW hsR retain : Bool) (borgList : List (RelPath × Nat) → List (String × Nat)) :
    ∃ a deleted, collapse_model true hsW repoName tree retain = .ok (a, deleted) ∧
      expand_model a hsR = .ok tree ∧
      (expand_model a hsR).map borgList = .ok (borgList tree) := by
  cases hsW
  · have hex : expand_model (ArchData.tarZstd (tarPax repoName tree)) hsR = .ok tree := by
      have h1 : expand_model (ArchData.tarZstd (tarPax repoName tree)) hsR =
          .ok (stripOne (tarPax repoName tree)) := rfl
      rw [h1, stripOne_tarPax]
    exact ⟨ArchData.tarZstd (tarPax repoName tree), !retain, rfl, hex, by rw [hex]; rfl⟩
  · have hex : expand_model (ArchData.squashfs tree) hsR = .ok tree := rfl
    exact ⟨ArchData.squashfs tree, !retain, rfl, hex, by rw [hex]; rfl⟩

theorem find?_ne_zero (zeros rest : List Int) (v : Int)
    (hz : ∀ c ∈ zeros, c = 0) (hv : v ≠ 0) :
    (zeros ++ v :: rest).find? (fun c => c != 0) = some v := by
  induction zeros with
  | nil =>
      rw [List.nil_append, List.find?_cons_of_pos]
      simpa using hv
  | cons z zs ih =>
      have hz0 : z = 0 := hz z (by simp)
      rw [List.cons_append, List.find?_cons_of_neg]
      · exact ih (fun c hc => hz c (by simp [hc]))
      · simp [hz0]

theorem indexOf_first_fail (zeros rest : List Int) (v : Int)
    (hz : ∀ c ∈ zeros, c = 0) (hv : v ≠ 0) :
    (zeros ++ v :: rest).indexOf v = zeros.length := by
  induction zeros with
  | nil => simp
  | cons z zs ih =>
      have hz0 : z = 0 := hz z (by simp)
      have hzv : z ≠ v := by rw [hz0]; exact fun hc => hv hc.symm
      rw [List.cons_append, List.indexOf_cons_ne _ hzv, ih (fun c hc => hz c (by simp [hc]))]
      simp

theorem pyFailedIndex_first (zeros rest : List Int) (v : Int)
    (hz : ∀ c ∈ zeros, c = 0) (hv : v ≠ 0) :
    pyFailedIndex (zeros ++ v :: rest) = zeros.length := by
  rw [pyFailedIndex, find?_ne_zero zeros rest v hz hv]
  exact indexOf_first_fail zeros rest v hz hv

/-- C8 (amended): with checking enabled and some stage failing, the raised
error names the FIRST failing stage's command, but the exit status it carries
is the LAST stage's return code, together with the last stage's captured
stdout and — unless suppressed, in which case it is empty — the last stage's
stderr; with every stage at zero, or with checking disabled, no error is
raised and a completed-process result for the final stage is returned. -/
theorem run_pipeline_check_spec (cmds : List (List String)) (rcs zeros rest : List Int)
    (v : Int) (lastOut lastErr : Option String) (suppress : Bool)
    (hz : ∀ c ∈ zeros, c = 0) (hv : v ≠ 0) :
    run_pipeline_model cmds (zeros ++ v :: rest) lastOut lastErr true suppress =
      .error { returncode := (zeros ++ v :: rest).getLastD 0,
               cmd := cmds.getD zeros.length [],
               output := lastOut,
               stderrData := if suppress then some "" else lastErr } ∧
    ((∀ c ∈ rcs, c = 0) →
      run_pipeline_model cmds rcs lastOut lastErr true suppress =
        .ok { args := cmds.getLastD [], returncode := rcs.getLastD 0,
              stdout := lastOut, stderrData := if suppress then some "" else lastErr }) ∧
    run_pipeline_model cmds rcs lastOut lastErr false suppress =
      .ok { args := cmds.getLastD [], returncode := rcs.getLastD 0,
            stdout := lastOut, stderrData := if suppress then some "" else lastErr } := by
  refine ⟨?_, ?_, rfl⟩
  · have hany : (zeros ++ v :: rest).any (fun c => c != 0) = true := by
      rw [List.any_eq_true]
      exact ⟨v, by simp, by simpa using hv⟩
    rw [run_pipeline_model, pyFailedIndex_first zeros rest v hz hv]
    simp [hany]
  · intro hall
    have hany : rcs.any (fun c => c != 0) = false := by
      rw [List.any_eq_false]
      intro c hc
      simpa using hall c hc
    rw [run_pipeline_model]
    simp [hany]

theorem run_pipeline_check_spec_witness :
    run_pipeline_model [["tar"], ["zstd"]] [0, 2] (some "o") (some "e") true false =
      .error { returncode := 2, cmd := ["zstd"], output := some "o",
               stderrData := some "e" } := by
  have h := run_pipeline_check_spec [["tar"], ["zstd"]] [] [0] [] 2 (some "o") (some "e")
    false (by decide) (by decide)
  simpa using h.1

/-- C8 (counterexample): a two-stage pipeline whose first stage exits 1 and
whose last stage exits 0: the raised error names the first stage's command
but carries return code 0 — the last stage's — not the failing stage's exit
status 1. -/
theorem run_pipeline_exit_info_cex :
    run_pipeline_model [["tar"], ["zstd", "-9"]] [1, 0] (some "o") (some "e") true false =
      .error { returncode := 0, cmd := ["tar"], output := some "o",
               stderrData := some "e" } ∧
    pyFailedIndex [1, 0] = 0 ∧ ([1, 0] : List Int).getD 0 0 = 1 ∧ (0 : Int) ≠ 1 := by
  refine ⟨rfl, rfl, rfl, by decide⟩

theorem find?_filter_keep {α} (l : List α) (p q : α → Bool)
    (h : ∀ a, q a = true → p a = true) : (l.filter p).find? q = l.find? q := by
  induction l with
  | nil => rfl
  | cons a l ih =>
      by_cases hq : q a = true
      · rw [List.filter_cons, h a hq, if_pos rfl, List.find?_cons_of_pos _ hq,
          List.find?_cons_of_pos _ hq]
      · have hq' : ¬ q a = true := hq
        by_cases hp : p a = true
        · rw [List.filter_cons, if_pos hp, List.find?_cons_of_neg _ hq',
            List.find?_cons_of_neg _ hq', ih]
        · rw [List.filter_cons, if_neg hp, List.find?_cons_of_neg _ hq', ih]

theorem find?_filter_none {α} (l : List α) (p q : α → Bool)
    (h : l.find? q = none) : (l.filter p).find? q = none := by
  rw [List.find?_eq_none] at h ⊢
  intro x hx
  exact h x (List.mem_filter.mp hx).1

theorem any_filter_keep {α} (l : List α) (p q : α → Bool)
    (h : ∀ a, q a = true → p a = true) : (l.filter p).any q = l.any q := by
  induction l with
  | nil => rfl
  | cons a l ih =>
      by_cases hq : q a = true
      · rw [List.filter_cons, h a hq, if_pos rfl]
        simp [hq]
      · by_cases hp : p a = true
        · rw [List.filter_cons, if_pos hp]
          simp only [List.any_cons, ih]
        · rw [List.filter_cons, if_neg hp]
          simp only [List.any_cons, ih]
          simp [hq]

theorem any_filter_false {α} (l : List α) (p q : α → Bool)
    (h : l.any q = false) : (l.filter p).any q = false := by
  rw [List.any_eq_false] at h ⊢
  intro x hx
  exact h x (List.mem_filter.mp hx).1

theorem append_ne_of_not_prefix {p q : FsPath} (h : ¬ p <+: q) (r : List String) :
    p ++ r ≠ q :=
  fun hEq => h ⟨r, hEq⟩

theorem ne_of_not_prefix {p q : FsPath} (h : ¬ p <+: q) : p ≠ q :=
  fun hEq => h (hEq ▸ List.prefix_rfl)

theorem append_ne_append_of_not_prefix {p q : FsPath} (h1 : ¬ p <+: q) (h2 : ¬ q <+: p)
    (r s : List String) : p ++ r ≠ q ++ s := by
  intro hEq
  have hp : p <+: q ++ s := hEq ▸ List.prefix_append p r
  have hq : q <+: q ++ s := List.prefix_append q s
  rcases List.prefix_or_prefix_of_prefix hp hq with h | h
  · exact h1 h
  · exact h2 h

theorem not_prefix_append_left {p q : FsPath} (h : ¬ p <+: q) (r : List String) :
    ¬ (p ++ r) <+: q :=
  fun hp => h ((List.prefix_append p r).trans hp)

theorem not_append_cons_prefix_self (p : FsPath) (x : String) (r : List String) :
    ¬ (p ++ x :: r) <+: p := by
  intro hp
  have := hp.length_le
  simp at this

theorem FS.readNode_writeNode_self (fs : FS) (p : FsPath) (n : FNode) :
    (fs.writeNode p n).readNode p = some n := by
  simp [FS.writeNode, FS.readNode, List.find?_cons_of_pos]

theorem FS.readNode_removeEntry_self (fs : FS) (p : FsPath) :
    (fs.removeEntry p).readNode p = none := by
  have h : (fs.removeEntry p).entries.find? (fun e => e.1 == p) = none := by
    rw [List.find?_eq_none]
    intro x hx
    have hx2 := (List.mem_filter.mp hx).2
    simp only [Bool.not_eq_true'] at hx2
    simp [hx2]
  simp [FS.readNode, h]

theorem FS.readNode_removeEntry_ne (fs : FS) (p q : FsPath) (h : p ≠ q) :
    (fs.removeEntry p).readNode q = fs.readNode q := by
  simp only [FS.readNode, FS.removeEntry]
  rw [find?_filter_keep]
  intro a ha
  have ha' : a.1 = q := by simpa using ha
  simp [ha', Ne.symm h]

theorem FS.readNode_writeNode_ne (fs : FS) (p q : FsPath) (n : FNode) (h : p ≠ q) :
    (fs.writeNode p n).readNode q = fs.readNode q := by
  have h1 : (fs.writeNode p n).readNode q = (fs.removeEntry p).readNode q := by
    simp only [FS.readNode, FS.writeNode]
    rw [List.find?_cons_of_neg]
    simp [h]
  rw [h1, FS.readNode_removeEntry_ne fs p q h]

theorem FS.readNode_removeEntry_none (fs : FS) (p q : FsPath)
    (h : fs.readNode q = none) : (fs.removeEntry p).readNode q = none := by
  simp only [FS.readNode, FS.removeEntry, Option.map_eq_none'] at h ⊢
  exact find?_filter_none _ _ _ h

theorem FS.readNode_rmtree_keep (fs : FS) (p q : FsPath) (h : ¬ p <+: q) :
    (fs.rmtree p).readNode q = fs.readNode q := by
  simp only [FS.readNode, FS.rmtree]
  rw [find?_filter_keep]
  intro a ha
  have ha' : a.1 = q := by simpa using ha
  simp [ha', h]

theorem FS.readNode_rmtree_none (fs : FS) (p q : FsPath)
    (h : fs.readNode q = none) : (fs.rmtree p).readNode q = none := by
  simp only [FS.readNode, FS.rmtree, Option.map_eq_none'] at h ⊢
  exact find?_filter_none _ _ _ h

theorem FS.readNode_mkdir_ne (fs : FS) (p q : FsPath) (h : p ≠ q) :
    (fs.mkdir p).readNode q = fs.readNode q := by
  by_cases hp : fs.hasPath p = true
  · simp [FS.mkdir, hp]
  · simp only [FS.mkdir, hp, if_false, Bool.false_eq_true, FS.readNode]
    rw [List.find?_cons_of_neg]
    simp [h]

theorem FS.hasPath_isSome_readNode (fs : FS) (p : FsPath) :
    fs.hasPath p = (fs.readNode p).isSome := by
  obtain ⟨l⟩ := fs
  simp only [FS.hasPath, FS.readNode]
  induction l with
  | nil => rfl
  | cons a l ih =>
      by_cases ha : (a.1 == p) = true
      · simp [List.any_cons, ha, List.find?_cons_of_pos _ ha]
      · have ha' : ¬ (a.1 == p) = true := ha
        simp only [List.any_cons, List.find?_cons_of_neg _ ha', ih]
        simp [ha]

theorem FS.readNode_mkdir_of_some (fs : FS) (p q : FsPath) (n : FNode)
    (h : fs.readNode q = some n) : (fs.mkdir p).readNode q = some n := by
  by_cases hpq : p = q
  · subst hpq
    have hp : fs.hasPath p = true := by
      rw [FS.hasPath_isSome_readNode, h]
      rfl
    simp [FS.mkdir, hp, h]
  · rw [FS.readNode_mkdir_ne fs p q hpq]
    exact h

theorem FS.hasPath_mkdir_self (fs : FS) (p : FsPath) :
    (fs.mkdir p).hasPath p = true := by
  unfold FS.mkdir
  by_cases hp : fs.hasPath p = true
  · rw [if_pos hp]; exact hp
  · rw [if_neg hp]
    show ((p, FNode.dir) :: fs.entries).any (fun e => e.1 == p) = true
    rw [List.any_cons]
    simp only [beq_self_eq_true, Bool.true_or]

theorem FS.hasPath_mkdir_mono (fs : FS) (p q : FsPath) (h : fs.hasPath q = true) :
    (fs.mkdir p).hasPath q = true := by
  unfold FS.mkdir
  by_cases hp : fs.hasPath p = true
  · rw [if_pos hp]; exact h
  · rw [if_neg hp]
    show ((p, FNode.dir) :: fs.entries).any (fun e => e.1 == q) = true
    rw [List.any_cons]
    have h2 : fs.entries.any (fun e => e.1 == q) = true := h
    rw [h2]
    simp only [Bool.or_true]

theorem FS.hasPath_removeEntry_keep (fs : FS) (p q : FsPath) (h : p ≠ q) :
    (fs.removeEntry p).hasPath q = fs.hasPath q := by
  simp only [FS.hasPath, FS.removeEntry]
  rw [any_filter_keep]
  intro a ha
  have ha' : a.1 = q := by simpa using ha
  simp [ha', Ne.symm h]

theorem FS.hasPath_writeNode_mono (fs : FS) (p q : FsPath) (n : FNode)
    (h : fs.hasPath q = true) : (fs.writeNode p n).hasPath q = true := by
  by_cases hpq : p = q
  · subst hpq
    simp [FS.writeNode, FS.hasPath]
  · have h1 : (fs.removeEntry p).hasPath q = true := by
      rw [FS.hasPath_removeEntry_keep fs p q hpq]
      exact h
    simp only [FS.writeNode, FS.hasPath, List.any_cons]
    rw [FS.hasPath] at h1
    simp [h1]

theorem FS.hasPath_rmtree_keep (fs : FS) (p q : FsPath) (h : ¬ p <+: q) :
    (fs.rmtree p).hasPath q = fs.hasPath q := by
  simp only [FS.hasPath, FS.rmtree]
  rw [any_filter_keep]
  intro a ha
  have ha' : a.1 = q := by simpa using ha
  simp [ha', h]

theorem FS.hasPath_rmtree_under (fs : FS) (p q : FsPath) (h : p <+: q) :
    (fs.rmtree p).hasPath q = false := by
  simp only [FS.hasPath, FS.rmtree]
  rw [List.any_eq_false]
  intro a ha
  have ha2 := (List.mem_filter.mp ha).2
  simp only [Bool.not_eq_true', decide_eq_false_iff_not] at ha2
  intro hq
  have hq' : a.1 = q := by simpa using hq
  exact ha2 (hq' ▸ h)

theorem FS.hasPath_removeEntry_false (fs : FS) (p q : FsPath)
    (h : fs.hasPath q = false) : (fs.removeEntry p).hasPath q = false := by
  simp only [FS.hasPath, FS.removeEntry] at h ⊢
  exact any_filter_false _ _ _ h

theorem FS.hasPath_rmtree_false (fs : FS) (p q : FsPath)
    (h : fs.hasPath q = false) : (fs.rmtree p).hasPath q = false := by
  simp only [FS.hasPath, FS.rmtree] at h ⊢
  exact any_filter_false _ _ _ h

theorem extractInto_nil (fs : FS) (dest : FsPath) : extractInto fs dest [] = fs := rfl

theorem extractInto_cons (fs : FS) (dest : FsPath) (e : FsPath × FNode)
    (es : List (FsPath × FNode)) :
    extractInto fs dest (e :: es) = extractInto (fs.writeNode (dest ++ e.1) e.2) dest es := rfl

theorem extractInto_readNode_keep (tree : List (FsPath × FNode)) (fs : FS)
    (dest q : FsPath) (h : ∀ e ∈ tree, dest ++ e.1 ≠ q) :
    (extractInto fs dest tree).readNode q = fs.readNode q := by
  induction tree generalizing fs with
  | nil => rw [extractInto_nil]
  | cons e es ih =>
      rw [extractInto_cons]
      rw [ih _ (fun e2 he2 => h e2 (by simp [he2]))]
      exact FS.readNode_writeNode_ne fs _ q e.2 (h e (by simp))

theorem extractInto_hasPath_mono (tree : List (FsPath × FNode)) (fs : FS)
    (dest q : FsPath) (h : fs.hasPath q = true) :
    (extractInto fs dest tree).hasPath q = true := by
  induction tree generalizing fs with
  | nil => rw [extractInto_nil]; exact h
  | cons e es ih =>
      rw [extractInto_cons]
      exact ih _ (FS.hasPath_writeNode_mono fs _ q e.2 h)

/-- C5 (amended): after mounting a temporary, archive-backed handle and then
unmounting it from a separate invocation, the sidecar file is removed, the
temporary repository directory recorded in it is removed, and the archive
file — indeed every path outside the two scratch directories and the mount
directory — is untouched; but the mounting invocation's scratch directory
itself, which only ever held the repository subdirectory, is NOT removed: an
empty scratch directory remains on disk. -/
theorem mount_unmount_cleanup (fs0 : FS) (tree : List (FsPath × FNode))
    (tempD tempD2 mountD archP : FsPath)
    (hTM : ¬ tempD <+: mountD) (hMT : ¬ mountD <+: tempD)
    (h2T : ¬ tempD2 <+: tempD) (hTA : ¬ tempD <+: archP)
    (h2A : ¬ tempD2 <+: archP) (hMA : ¬ mountD <+: archP) :
    ∃ fs, mountUnmountScenario fs0 tempD tempD2 mountD tree = .ok fs ∧
      fs.readNode (mountD ++ [".borg-repo"]) = none ∧
      fs.hasPath (tempD ++ ["borg-repo"]) = false ∧
      fs.readNode archP = fs0.readNode archP ∧
      fs.hasPath tempD = true := by
  set repoD : FsPath := tempD ++ ["borg-repo"] with hrepoD
  set sideP : FsPath := mountD ++ [".borg-repo"] with hsideP
  set repoD2 : FsPath := tempD2 ++ ["borg-repo"] with hrepoD2
  have dSideTemp : sideP ≠ tempD := append_ne_of_not_prefix hMT [".borg-repo"]
  have dSideArch : sideP ≠ archP := append_ne_of_not_prefix hMA [".borg-repo"]
  have dTempArch : tempD ≠ archP := ne_of_not_prefix hTA
  have dRepoArch : repoD ≠ archP := append_ne_of_not_prefix hTA ["borg-repo"]
  have dMountArch : mountD ≠ archP := ne_of_not_prefix hMA
  have dTemp2Arch : tempD2 ≠ archP := ne_of_not_prefix h2A
  have dRepo2Arch : repoD2 ≠ archP := append_ne_of_not_prefix h2A ["borg-repo"]
  have dRepoNPArch : ¬ repoD <+: archP := not_prefix_append_left hTA ["borg-repo"]
  have dRepo2NPArch : ¬ repoD2 <+: archP := not_prefix_append_left h2A ["borg-repo"]
  have dRepoNPTemp : ¬ repoD <+: tempD := by
    rw [hrepoD]
    exact not_append_cons_prefix_self tempD "borg-repo" []
  have dRepo2NPTemp : ¬ repoD2 <+: tempD := not_prefix_append_left h2T ["borg-repo"]
  have dTreeSide : ∀ e ∈ tree, repoD ++ e.1 ≠ sideP := by
    intro e _
    rw [hrepoD, hsideP, List.append_assoc]
    exact append_ne_append_of_not_prefix hTM hMT _ _
  have dTreeArch : ∀ e ∈ tree, repoD ++ e.1 ≠ archP := by
    intro e _
    rw [hrepoD, List.append_assoc]
    exact append_ne_of_not_prefix hTA _
  set fsW : FS := ((enterTemp fs0 tempD).mkdir mountD).writeNode sideP
    (FNode.repoRef repoD) with hfsW
  set fsM : FS := extractInto fsW repoD tree with hfsM
  set fs2 : FS := (fsM.mkdir tempD2).mkdir repoD2 with hfs2
  have hFA : fs2.hasPath mountD = true := by
    rw [hfs2, hfsM, hfsW]
    apply FS.hasPath_mkdir_mono
    apply FS.hasPath_mkdir_mono
    apply extractInto_hasPath_mono
    apply FS.hasPath_writeNode_mono
    exact FS.hasPath_mkdir_self _ mountD
  have hFB : fs2.readNode sideP = some (FNode.repoRef repoD) := by
    rw [hfs2, hfsM, hfsW]
    apply FS.readNode_mkdir_of_some
    apply FS.readNode_mkdir_of_some
    rw [extractInto_readNode_keep tree _ repoD sideP dTreeSide]
    exact FS.readNode_writeNode_self _ sideP _
  have hun : unmountFs fs2 mountD = .ok ((fs2.rmtree repoD).removeEntry sideP) := by
    unfold unmountFs
    rw [← hsideP, hFA, hFB]
    rfl
  have hscen : mountUnmountScenario fs0 tempD tempD2 mountD tree =
      match unmountFs fs2 mountD with
      | .error e => .error e
      | .ok fs3 => .ok ((fs3.rmtree repoD2).rmtree tempD2) := rfl
  refine ⟨(((fs2.rmtree repoD).removeEntry sideP).rmtree repoD2).rmtree tempD2,
    ?_, ?_, ?_, ?_, ?_⟩
  · rw [hscen, hun]
  · apply FS.readNode_rmtree_none
    apply FS.readNode_rmtree_none
    exact FS.readNode_removeEntry_self _ sideP
  · apply FS.hasPath_rmtree_false
    apply FS.hasPath_rmtree_false
    apply FS.hasPath_removeEntry_false
    exact FS.hasPath_rmtree_under _ repoD repoD List.prefix_rfl
  · rw [FS.readNode_rmtree_keep _ tempD2 archP h2A,
      FS.readNode_rmtree_keep _ repoD2 archP dRepo2NPArch,
      FS.readNode_removeEntry_ne _ sideP archP dSideArch,
      FS.readNode_rmtree_keep _ repoD archP dRepoNPArch,
      hfs2, hfsM, hfsW,
      FS.readNode_mkdir_ne _ repoD2 archP dRepo2Arch,
      FS.readNode_mkdir_ne _ tempD2 archP dTemp2Arch,
      extractInto_readNode_keep tree _ repoD archP dTreeArch,
      FS.readNode_writeNode_ne _ sideP archP _ dSideArch,
      FS.readNode_mkdir_ne _ mountD archP dMountArch]
    show ((fs0.mkdir tempD).mkdir repoD).readNode archP = fs0.readNode archP
    rw [FS.readNode_mkdir_ne _ repoD archP dRepoArch,
      FS.readNode_mkdir_ne _ tempD archP dTempArch]
  · rw [FS.hasPath_rmtree_keep _ tempD2 tempD h2T,
      FS.hasPath_rmtree_keep _ repoD2 tempD dRepo2NPTemp,
      FS.hasPath_removeEntry_keep _ sideP tempD dSideTemp,
      FS.hasPath_rmtree_keep _ repoD tempD dRepoNPTemp,
      hfs2, hfsM, hfsW]
    apply FS.hasPath_mkdir_mono
    apply FS.hasPath_mkdir_mono
    apply extractInto_hasPath_mono
    apply FS.hasPath_writeNode_mono
    apply FS.hasPath_mkdir_mono
    show ((fs0.mkdir tempD).mkdir repoD).hasPath tempD = true
    apply FS.hasPath_mkdir_mono
    exact FS.hasPath_mkdir_self fs0 tempD

theorem mount_unmount_cleanup_witness :
    ∃ fs, mountUnmountScenario cexFs0 ["tmp", "t1"] ["tmp", "t2"] ["mnt"] cexTree = .ok fs ∧
      fs.readNode (["mnt"] ++ [".borg-repo"]) = none ∧
      fs.hasPath (["tmp", "t1"] ++ ["borg-repo"]) = false ∧
      fs.readNode ["home", "arch.baz"] = cexFs0.readNode ["home", "arch.baz"] ∧
      fs.hasPath ["tmp", "t1"] = true :=
  mount_unmount_cleanup cexFs0 cexTree ["tmp", "t1"] ["tmp", "t2"] ["mnt"]
    ["home", "arch.baz"] (by decide) (by decide) (by decide) (by decide)
    (by decide) (by decide)

/-- C5 (counterexample): a concrete temporary mount followed by its unmount:
the unmount succeeds and removes the sidecar, yet the mounting invocation's
scratch directory `tmp/t1` still exists afterwards — a residual scratch
directory remains, contrary to the claim. -/
theorem mount_unmount_residual_scratch_cex :
    (mountUnmountScenario cexFs0 ["tmp", "t1"] ["tmp", "t2"] ["mnt"] cexTree).toOption.map
        (fun fs => (fs.hasPath ["tmp", "t1"], fs.readNode ["mnt", ".borg-repo"])) =
      some (true, none) := by
  decide

end BorgArch
